import Mathlib

set_option maxRecDepth 4000

/-!
Shallow embedding of the semantic memory engine of `mcp_memory_server`
(`embeddings.py` and `database.py`), together with theorems checking the
specification's claims against it.

Modelling conventions:
* Python floats (IEEE binary64) and SQL REAL values are modelled as rationals.
* A stored embedding blob (`struct.pack("{n}f", ...)`) is modelled as the list
  of binary32 values the bytes encode: each element is `some q` for a finite
  float32 value `q`, or `none` for a non-finite (infinite) float32.
* The SQLite database is a `Store`: the `memories` table, the `vec_memories`
  virtual table, the AUTOINCREMENT counter, and a logical clock standing for
  wall-clock timestamps.
* The sqlite-vec KNN query and the sentence-transformers model are external
  dependencies whose code is not part of this repository; they are modelled
  from the spec's black-box contracts (see `knnQuery`), or passed as explicit
  function parameters (`embed`, `dist`).
* `metadata` is arbitrary JSON key/value data; it is modelled as an
  association list, with `json.dumps`/`json.loads` as the exact round trip
  they are for such values, and Python truthiness (`if metadata`) made
  explicit: `None` and the empty mapping are falsy.
-/

namespace MCPMemory

/-! ### Binary32 encoding (`embeddings.py`, `struct.pack`/`struct.unpack`) -/

/-- `2 ^ e` as a rational, for an integer exponent. -/
def pow2 (e : ℤ) : ℚ :=
  if 0 ≤ e then ((2 : ℚ) ^ e.toNat) else ((2 : ℚ) ^ (-e).toNat)⁻¹

/-- Round a rational to the nearest integer, ties to even
(the rounding mode of IEEE 754 conversions). -/
def roundHalfEven (q : ℚ) : ℤ :=
  let f := ⌊q⌋
  let r := q - f
  if r < 1 / 2 then f
  else if 1 / 2 < r then f + 1
  else if f % 2 = 0 then f else f + 1

/-- Smallest `k < bound` with `P k`, if any. -/
def findFirst (P : ℕ → Bool) : ℕ → Option ℕ
  | 0 => none
  | n + 1 =>
    match findFirst P n with
    | some k => some k
    | none => if P n then some n else none

/-- The exponent of the binary32 quantum used when rounding `q` to float32:
the smallest `e ≥ -149` with `|q| < 2 ^ (e + 24)` (so `-149` for zero and
subnormals).  `106` is an overflow sentinel (`|q| ≥ 2 ^ 130`). -/
def f32Exp (q : ℚ) : ℤ :=
  match findFirst (fun k => |q| * 2 ^ 125 < 2 ^ k) 255 with
  | some k => (k : ℤ) - 149
  | none => 106

/-- Round a double to the nearest binary32 value (round-to-nearest,
ties-to-even), as C's double-to-float conversion used by
`struct.pack("f", x)` does.  `none` means the result is non-finite
(overflow to infinity). -/
def f32Round (q : ℚ) : Option ℚ :=
  let e := f32Exp q
  let n := roundHalfEven (q / pow2 e)
  let v := (n : ℚ) * pow2 e
  if |v| < 2 ^ 128 then some v else none

/-- `q` is exactly representable as a finite IEEE binary32 value:
a significand of magnitude below `2^24` scaled by `2^e` with
`-149 ≤ e ≤ 104`. -/
def IsF32 (q : ℚ) : Prop :=
  ∃ n e : ℤ, |n| < 2 ^ 24 ∧ -149 ≤ e ∧ e ≤ 104 ∧ q = (n : ℚ) * pow2 e

/-- A blob is the sequence of binary32 values its bytes encode
(4 bytes per float, native order); `none` encodes a non-finite float32. -/
abbrev Blob := List (Option ℚ)

/-- `embedding_to_blob` (embeddings.py): `struct.pack(f"{len(embedding)}f",
*embedding)` — packs each Python float into 4 bytes, narrowing it to the
nearest binary32 value. -/
def embedding_to_blob (embedding : List ℚ) : Blob :=
  embedding.map f32Round

/-- `blob_to_embedding` (embeddings.py): `struct.unpack(f"{num_floats}f",
blob)` — reads each 4-byte group back as a float32 and widens it to a Python
float, which is exact, so on blob values it is the identity. -/
def blob_to_embedding (blob : Blob) : Blob :=
  blob

/-! ### Metadata (`json.dumps` / `json.loads` and Python truthiness) -/

/-- Arbitrary structured key/value metadata, opaque to the engine. -/
abbrev Metadata := List (String × String)

/-- `json.dumps(metadata) if metadata else None` (database.py): `None` and
the empty mapping are falsy, so both store SQL NULL; a non-empty mapping is
serialized (and `json.loads` recovers it exactly). -/
def dumpsIfTruthy (metadata : Option Metadata) : Option Metadata :=
  match metadata with
  | none => none
  | some m => if m.isEmpty then none else some m

/-- `json.loads(row["metadata"]) if row["metadata"] else None` (database.py):
a NULL column reads as `None`, a stored JSON document deserializes exactly. -/
def loadsIfTruthy (column : Option Metadata) : Option Metadata :=
  column

/-! ### Store state -/

/-- One row of the `memories` table. -/
structure MemRow where
  id : ℕ
  content : String
  embedding : Blob
  created_at : ℕ
  updated_at : ℕ
  metadata : Option Metadata
  deriving DecidableEq, Repr

/-- The database state: the `memories` table, the `vec_memories` vector
index (rowid, embedding), the AUTOINCREMENT counter for the next id, and a
logical clock supplying timestamps. -/
structure Store where
  memories : List MemRow
  vec : List (ℕ × Blob)
  nextId : ℕ
  clock : ℕ
  deriving DecidableEq, Repr

/-- The freshly initialized database (`init_database`): both tables empty,
AUTOINCREMENT starts at 1. -/
def initStore : Store :=
  { memories := [], vec := [], nextId := 1, clock := 0 }

/-! ### Search (`search_memories`, database.py lines 55–110) -/

/-- One entry of the list returned by `search_memories`. -/
structure SearchResult where
  id : ℕ
  content : String
  similarity : ℚ
  created_at : ℕ
  updated_at : ℕ
  metadata : Option Metadata
  deriving DecidableEq, Repr

/-- Python's `round(x, 4)`: round to 4 decimal places, ties to even. -/
def round4 (q : ℚ) : ℚ :=
  (roundHalfEven (q * 10000) : ℚ) / 10000

/-- `SELECT ... FROM memories WHERE id = ?` followed by `fetchone()`. -/
def fetchMemory (memories : List MemRow) (rowid : ℕ) : Option MemRow :=
  memories.find? (fun r => r.id == rowid)

/-- Modelled from the spec: the sqlite-vec `vec0` KNN query (an external
dependency, not part of this repository) — "Query the vector index for the
`2 × limit` nearest neighbors by L2 distance": it ranks the index rows by
ascending distance to the query blob and returns at most `k` of them (none
when `k ≤ 0`).  The black-box distance computation is the parameter `dist`. -/
def knnQuery (dist : Blob → Blob → ℚ) (table : List (ℕ × Blob))
    (queryBlob : Blob) (k : ℤ) : List (ℕ × ℚ) :=
  ((table.map (fun p => (p.1, dist queryBlob p.2))).mergeSort
    (fun a b => a.2 ≤ b.2)).take k.toNat

/-- The post-processing loop of `search_memories` (database.py lines 80–107):
for each candidate `(rowid, distance)`, convert the L2 distance to a cosine
similarity `1 - d²/2`, skip it when the similarity is strictly below the
threshold, hydrate the record (skipping rowids that fail to hydrate), report
the similarity rounded to 4 decimal places, and break as soon as `limit`
results are collected. -/
def searchLoop (memories : List MemRow) (threshold : ℚ) (lim : ℤ) :
    List (ℕ × ℚ) → List SearchResult → List SearchResult
  | [], acc => acc.reverse
  | (rowid, distance) :: rest, acc =>
    let similarity := 1 - distance * distance / 2
    if similarity < threshold then
      searchLoop memories threshold lim rest acc
    else
      let acc' :=
        match fetchMemory memories rowid with
        | some m =>
          { id := m.id, content := m.content,
            similarity := round4 similarity,
            created_at := m.created_at, updated_at := m.updated_at,
            metadata := loadsIfTruthy m.metadata } :: acc
        | none => acc
      if lim ≤ (acc'.length : ℤ) then acc'.reverse
      else searchLoop memories threshold lim rest acc'

/-- The pure core of `search_memories`, given the rows the vector index
returned for the query. -/
def search_memories_core (memories : List MemRow) (vec_results : List (ℕ × ℚ))
    (lim : ℤ) (threshold : ℚ) : List SearchResult :=
  searchLoop memories threshold lim vec_results []

/-- `search_memories` (database.py): embed the query, fetch the `2 × limit`
nearest index rows, then run the filtering/hydration loop. -/
def search_memories (embed : String → List ℚ) (dist : Blob → Blob → ℚ)
    (s : Store) (query : String) (lim : ℤ) (threshold : ℚ) :
    List SearchResult :=
  let query_blob := embedding_to_blob (embed query)
  let vec_results := knnQuery dist s.vec query_blob (2 * lim)
  search_memories_core s.memories vec_results lim threshold

/-- `find_similar_memories` (database.py): search with candidate count 5 and
the configured duplicate threshold (`get_duplicate_threshold()`, modelled as
the parameter `dupThreshold`). -/
def find_similar_memories (embed : String → List ℚ) (dist : Blob → Blob → ℚ)
    (dupThreshold : ℚ) (s : Store) (content : String) : List SearchResult :=
  search_memories embed dist s content 5 dupThreshold

/-! ### Create / update / delete (database.py) -/

/-- Outcome of `create_memory`: the stored record's identity, or a conflict
report carrying the similar records as (id, content, similarity) triples. -/
inductive CreateResult where
  | stored (id : ℕ) (content : String) (created_at : ℕ)
  | conflict_detected (message : String) (similar_memories : List (ℕ × String × ℚ))
  deriving DecidableEq, Repr

/-- `create_memory` (database.py lines 122–170): unless `force` is set, look
for similar memories first and refuse the insert (returning the conflicts and
leaving the store untouched) when any are found; otherwise embed the content
and insert the row and its paired vector entry. -/
def create_memory (embed : String → List ℚ) (dist : Blob → Blob → ℚ)
    (dupThreshold : ℚ) (content : String) (metadata : Option Metadata)
    (force : Bool) (s : Store) : CreateResult × Store :=
  let insert : Unit → CreateResult × Store := fun _ =>
    let embedding_blob := embedding_to_blob (embed content)
    let metadata_json := dumpsIfTruthy metadata
    let memory_id := s.nextId
    let row : MemRow :=
      { id := memory_id, content := content, embedding := embedding_blob,
        created_at := s.clock, updated_at := s.clock,
        metadata := metadata_json }
    (CreateResult.stored memory_id content s.clock,
      { memories := s.memories ++ [row],
        vec := s.vec ++ [(memory_id, embedding_blob)],
        nextId := s.nextId + 1, clock := s.clock + 1 })
  if force then insert ()
  else
    match find_similar_memories embed dist dupThreshold s content with
    | [] => insert ()
    | similar =>
      (CreateResult.conflict_detected
        ("Found similar existing memories. Use force=true to create anyway, or call update_memory to merge.")
        (similar.map (fun m => (m.id, m.content, m.similarity))), s)

/-- Outcome of `update_memory`. -/
inductive UpdateResult where
  | updated (id : ℕ) (content : String) (updated_at : ℕ)
  | error (message : String)
  deriving DecidableEq, Repr

/-- `update_memory` (database.py lines 173–208): report a structured error
when the id does not exist; otherwise re-embed the content and overwrite
content, embedding, metadata and `updated_at` on the row, and the paired
vector entry, in the same transaction. -/
def update_memory (embed : String → List ℚ) (memory_id : ℕ) (content : String)
    (metadata : Option Metadata) (s : Store) : UpdateResult × Store :=
  match s.memories.find? (fun r => r.id == memory_id) with
  | none =>
    (UpdateResult.error ("Memory with id " ++ toString memory_id ++ " not found"), s)
  | some _ =>
    let embedding_blob := embedding_to_blob (embed content)
    let metadata_json := dumpsIfTruthy metadata
    let updated_at := s.clock
    (UpdateResult.updated memory_id content updated_at,
      { memories := s.memories.map (fun r =>
          if r.id = memory_id then
            { r with content := content, embedding := embedding_blob,
                     metadata := metadata_json, updated_at := updated_at }
          else r),
        vec := s.vec.map (fun e =>
          if e.1 = memory_id then (e.1, embedding_blob) else e),
        nextId := s.nextId, clock := s.clock + 1 })

/-- Outcome of `delete_memory`. -/
inductive DeleteResult where
  | deleted (id : ℕ)
  | error (message : String)
  deriving DecidableEq, Repr

/-- `delete_memory` (database.py lines 211–227): report a structured error
when the id does not exist; otherwise delete the vector entry and the row in
the same transaction. -/
def delete_memory (memory_id : ℕ) (s : Store) : DeleteResult × Store :=
  match s.memories.find? (fun r => r.id == memory_id) with
  | none =>
    (DeleteResult.error ("Memory with id " ++ toString memory_id ++ " not found"), s)
  | some _ =>
    (DeleteResult.deleted memory_id,
      { memories := s.memories.filter (fun r => r.id ≠ memory_id),
        vec := s.vec.filter (fun e => e.1 ≠ memory_id),
        nextId := s.nextId, clock := s.clock + 1 })

/-! ### Listing (`list_memories`, database.py lines 230–268) -/

/-- One entry of `list_memories`' `memories` field. -/
structure ListedRow where
  id : ℕ
  content : String
  created_at : ℕ
  updated_at : ℕ
  metadata : Option Metadata
  deriving DecidableEq, Repr

/-- The value returned by `list_memories`. -/
structure ListResult where
  memories : List ListedRow
  total : ℕ
  page : ℤ
  total_pages : ℤ
  deriving DecidableEq, Repr

/-- Python's integer `//`, which raises `ZeroDivisionError` on a zero
divisor and otherwise floors. -/
def pyFloorDiv (a b : ℤ) : Except String ℤ :=
  if b = 0 then Except.error ("integer division or modulo by zero")
  else Except.ok (Int.fdiv a b)

/-- `SELECT ... ORDER BY created_at DESC LIMIT ? OFFSET ?`: most recent
first; a negative LIMIT means no limit, a negative OFFSET means no offset. -/
def selectPage (memories : List MemRow) (lim : ℤ) (offset : ℤ) : List MemRow :=
  let sorted := memories.mergeSort (fun a b => b.created_at ≤ a.created_at)
  let dropped := sorted.drop offset.toNat
  if lim < 0 then dropped else dropped.take lim.toNat

/-- `list_memories` (database.py lines 230–268): count the rows, fetch the
requested page (`offset = (page - 1) * limit`) ordered by `created_at`
descending, and compute
`total_pages = (total + limit - 1) // limit if total > 0 else 1` — a Python
expression that divides by zero when `total > 0` and `limit == 0`. -/
def list_memories (page : ℤ) (lim : ℤ) (s : Store) : Except String ListResult :=
  match (if 0 < s.memories.length then
      pyFloorDiv ((s.memories.length : ℤ) + lim - 1) lim
    else Except.ok 1) with
  | Except.error e => Except.error e
  | Except.ok total_pages =>
    Except.ok
      { memories := (selectPage s.memories lim ((page - 1) * lim)).map
          (fun r =>
            { id := r.id, content := r.content, created_at := r.created_at,
              updated_at := r.updated_at,
              metadata := loadsIfTruthy r.metadata }),
        total := s.memories.length, page := page,
        total_pages := total_pages }

/-- A sample record used to instantiate theorems on concrete stores. -/
def sampleRow (i : ℕ) (c : String) (t : ℕ) (md : Option Metadata) : MemRow :=
  { id := i, content := c, embedding := [], created_at := t,
    updated_at := t, metadata := md }

/-- A sample one-record store used to instantiate theorems. -/
def sampleStore1 : Store :=
  { memories := [sampleRow 1 "a" 0 none], vec := [(1, [])],
    nextId := 2, clock := 1 }

/-- A sample three-record store used to instantiate theorems. -/
def sampleStore3 : Store :=
  { memories := [sampleRow 1 "a" 0 none, sampleRow 2 "b" 1 none,
      sampleRow 3 "c" 2 none],
    vec := [(1, []), (2, []), (3, [])], nextId := 4, clock := 3 }

/-! ### Reachable states -/

/-- The states reachable from the fresh database by any interleaving of
`create_memory`, `update_memory` and `delete_memory` (with arbitrary inputs,
arbitrary configured thresholds, and arbitrary behavior of the external
distance oracle). -/
inductive Reachable (embed : String → List ℚ) : Store → Prop where
  | init : Reachable embed initStore
  | create (s : Store) (dist : Blob → Blob → ℚ) (dupThreshold : ℚ)
      (content : String) (metadata : Option Metadata) (force : Bool) :
      Reachable embed s →
      Reachable embed (create_memory embed dist dupThreshold content metadata force s).2
  | update (s : Store) (memory_id : ℕ) (content : String)
      (metadata : Option Metadata) :
      Reachable embed s →
      Reachable embed (update_memory embed memory_id content metadata s).2
  | delete (s : Store) (memory_id : ℕ) :
      Reachable embed s →
      Reachable embed (delete_memory memory_id s).2

/-- The pairing invariant between the two tables: the ids of `memories` and
the rowids of `vec_memories` coincide, paired entries carry the record's
embedding, and all ids are below the AUTOINCREMENT counter. -/
def pairedInv (s : Store) : Prop :=
  (∀ i : ℕ, (∃ r ∈ s.memories, r.id = i) ↔ (∃ e ∈ s.vec, e.1 = i)) ∧
  (∀ r ∈ s.memories, ∀ e ∈ s.vec, e.1 = r.id → e.2 = r.embedding) ∧
  (∀ r ∈ s.memories, r.id < s.nextId)

/-! ### Helper lemmas -/

theorem fdiv_natCast (m n : ℕ) : Int.fdiv (m : ℤ) (n : ℤ) = ((m / n : ℕ) : ℤ) := by
  cases m with
  | zero => simp [Int.fdiv]
  | succ k => rfl

theorem list_memories_ok (page lim : ℤ) (s : Store) (tp : ℤ)
    (htp : (if 0 < s.memories.length then
        pyFloorDiv ((s.memories.length : ℤ) + lim - 1) lim
      else Except.ok 1) = Except.ok tp) :
    list_memories page lim s =
      Except.ok
        { memories := (selectPage s.memories lim ((page - 1) * lim)).map
            (fun r =>
              { id := r.id, content := r.content, created_at := r.created_at,
                updated_at := r.updated_at,
                metadata := loadsIfTruthy r.metadata }),
          total := s.memories.length, page := page, total_pages := tp } := by
  unfold list_memories
  rw [htp]

theorem ceil_div_nat (t l : ℕ) (hl : 0 < l) :
    ⌈(t : ℚ) / (l : ℚ)⌉ = (((t + l - 1) / l : ℕ) : ℤ) := by
  have hlq : (0 : ℚ) < (l : ℚ) := by exact_mod_cast hl
  set z : ℕ := (t + l - 1) / l with hz
  have h1 : z * l ≤ t + l - 1 := Nat.div_mul_le_self _ _
  have h2 : t + l - 1 < (z + 1) * l := by
    have : (t + l - 1) / l < z + 1 := Nat.lt_succ_of_le (le_of_eq hz.symm)
    exact (Nat.div_lt_iff_lt_mul hl).mp this
  rw [Nat.add_mul, one_mul] at h2
  have hub : t ≤ z * l := by omega
  have hlb : z * l < t + l := by omega
  rw [Int.ceil_eq_iff]
  constructor
  · rw [lt_div_iff₀ hlq]
    push_cast
    have : ((z : ℚ) * l) < (t : ℚ) + l := by exact_mod_cast hlb
    nlinarith
  · rw [div_le_iff₀ hlq]
    push_cast
    exact_mod_cast hub

theorem pairedInv_init : pairedInv initStore := by
  simp [pairedInv, initStore]

theorem pairedInv_insert (s : Store) (content : String) (blob : Blob)
    (mj : Option Metadata) (h : pairedInv s) :
    pairedInv
      { memories := s.memories ++
          [{ id := s.nextId, content := content, embedding := blob,
             created_at := s.clock, updated_at := s.clock, metadata := mj }],
        vec := s.vec ++ [(s.nextId, blob)],
        nextId := s.nextId + 1, clock := s.clock + 1 } := by
  obtain ⟨hiff, hemb, hbound⟩ := h
  refine ⟨?_, ?_, ?_⟩
  · intro i
    simp only [List.mem_append, List.mem_singleton]
    constructor
    · rintro ⟨r, hr | hr, hid⟩
      · obtain ⟨e, he, hee⟩ := (hiff i).mp ⟨r, hr, hid⟩
        exact ⟨e, Or.inl he, hee⟩
      · subst hr
        exact ⟨(s.nextId, blob), Or.inr rfl, hid⟩
    · rintro ⟨e, he | he, hee⟩
      · obtain ⟨r, hr, hid⟩ := (hiff i).mpr ⟨e, he, hee⟩
        exact ⟨r, Or.inl hr, hid⟩
      · subst he
        refine ⟨_, Or.inr rfl, ?_⟩
        simpa using hee
  · intro r hr e he hid
    rw [List.mem_append, List.mem_singleton] at hr he
    rcases hr with hr | hr <;> rcases he with he | he
    · exact hemb r hr e he hid
    · exfalso
      subst he
      have hrid : r.id = s.nextId := by simpa using hid.symm
      exact absurd (hbound r hr) (by omega)
    · exfalso
      subst hr
      have heid : e.1 = s.nextId := by simpa using hid
      obtain ⟨r', hr', hid'⟩ := (hiff s.nextId).mpr ⟨e, he, heid⟩
      exact absurd (hbound r' hr') (by omega)
    · subst hr
      subst he
      rfl
  · intro r hr
    rw [List.mem_append, List.mem_singleton] at hr
    rcases hr with hr | hr
    · exact Nat.lt_succ_of_lt (hbound r hr)
    · subst hr
      exact Nat.lt_succ_self _

theorem pairedInv_create (embed : String → List ℚ) (dist : Blob → Blob → ℚ)
    (dupThreshold : ℚ) (content : String) (metadata : Option Metadata)
    (force : Bool) (s : Store) (h : pairedInv s) :
    pairedInv (create_memory embed dist dupThreshold content metadata force s).2 := by
  unfold create_memory
  cases force with
  | true =>
    simp only [if_true]
    exact pairedInv_insert s content _ _ h
  | false =>
    simp only [Bool.false_eq_true, if_false]
    cases hsim : find_similar_memories embed dist dupThreshold s content with
    | nil => exact pairedInv_insert s content _ _ h
    | cons hd tl => exact h

theorem pairedInv_update (embed : String → List ℚ) (memory_id : ℕ)
    (content : String) (metadata : Option Metadata) (s : Store)
    (h : pairedInv s) :
    pairedInv (update_memory embed memory_id content metadata s).2 := by
  obtain ⟨hiff, hemb, hbound⟩ := h
  unfold update_memory
  cases hfind : s.memories.find? (fun r => r.id == memory_id) with
  | none => exact ⟨hiff, hemb, hbound⟩
  | some w =>
    refine ⟨?_, ?_, ?_⟩
    · intro i
      simp only [List.mem_map]
      constructor
      · rintro ⟨r', ⟨r, hr, rfl⟩, hid⟩
        have hid' : r.id = i := by
          by_cases hc : r.id = memory_id
          · simpa [if_pos hc] using hid
          · simpa [if_neg hc] using hid
        obtain ⟨e, he, hee⟩ := (hiff i).mp ⟨r, hr, hid'⟩
        refine ⟨_, ⟨e, he, rfl⟩, ?_⟩
        by_cases hc : e.1 = memory_id
        · simpa [if_pos hc, ← hc] using hee
        · simpa [if_neg hc] using hee
      · rintro ⟨e', ⟨e, he, rfl⟩, hee⟩
        have hee' : e.1 = i := by
          by_cases hc : e.1 = memory_id
          · simpa [if_pos hc, hc] using hee
          · simpa [if_neg hc] using hee
        obtain ⟨r, hr, hid⟩ := (hiff i).mpr ⟨e, he, hee'⟩
        refine ⟨_, ⟨r, hr, rfl⟩, ?_⟩
        by_cases hc : r.id = memory_id
        · simpa [if_pos hc] using hid
        · simpa [if_neg hc] using hid
    · intro r' hr' e' he' hid
      rw [List.mem_map] at hr' he'
      obtain ⟨r, hr, rfl⟩ := hr'
      obtain ⟨e, he, rfl⟩ := he'
      by_cases hcr : r.id = memory_id <;> by_cases hce : e.1 = memory_id
      · simp only [if_pos hcr, if_pos hce]
      · exfalso
        simp only [if_pos hcr, if_neg hce] at hid
        exact hce (hid.trans hcr)
      · exfalso
        simp only [if_neg hcr, if_pos hce] at hid
        exact hcr (hid.symm.trans hce)
      · simp only [if_neg hcr, if_neg hce] at hid ⊢
        exact hemb r hr e he hid
    · intro r' hr'
      rw [List.mem_map] at hr'
      obtain ⟨r, hr, rfl⟩ := hr'
      by_cases hc : r.id = memory_id
      · simpa [if_pos hc] using hbound r hr
      · simpa [if_neg hc] using hbound r hr

theorem pairedInv_delete (memory_id : ℕ) (s : Store) (h : pairedInv s) :
    pairedInv (delete_memory memory_id s).2 := by
  obtain ⟨hiff, hemb, hbound⟩ := h
  unfold delete_memory
  cases hfind : s.memories.find? (fun r => r.id == memory_id) with
  | none => exact ⟨hiff, hemb, hbound⟩
  | some w =>
    refine ⟨?_, ?_, ?_⟩
    · intro i
      simp only [List.mem_filter, decide_not, Bool.not_eq_eq_eq_not,
        Bool.not_true, decide_eq_false_iff_not]
      constructor
      · rintro ⟨r, ⟨hr, hrne⟩, hid⟩
        obtain ⟨e, he, hee⟩ := (hiff i).mp ⟨r, hr, hid⟩
        refine ⟨e, ⟨he, ?_⟩, hee⟩
        rw [hee, ← hid]
        exact hrne
      · rintro ⟨e, ⟨he, hene⟩, hee⟩
        obtain ⟨r, hr, hid⟩ := (hiff i).mpr ⟨e, he, hee⟩
        refine ⟨r, ⟨hr, ?_⟩, hid⟩
        rw [hid, ← hee]
        exact hene
    · intro r hr e he hid
      rw [List.mem_filter] at hr he
      exact hemb r hr.1 e he.1 hid
    · intro r hr
      rw [List.mem_filter] at hr
      exact hbound r hr.1

/-! ### C1 -/

/-- C1: in every store state reachable by any interleaving of
`create_memory`, `update_memory` and `delete_memory`, the set of ids in the
`memories` table equals the set of rowids in the `vec_memories` index, and
for each id the embedding stored in the vector index equals the embedding
stored on the record. -/
theorem c1_pairing_invariant (embed : String → List ℚ) (s : Store)
    (h : Reachable embed s) :
    (∀ i : ℕ, (∃ r ∈ s.memories, r.id = i) ↔ (∃ e ∈ s.vec, e.1 = i)) ∧
      (∀ r ∈ s.memories, ∀ e ∈ s.vec, e.1 = r.id → e.2 = r.embedding) := by
  have hinv : pairedInv s := by
    induction h with
    | init => exact pairedInv_init
    | create s dist dupThreshold content metadata force _ ih =>
      exact pairedInv_create embed dist dupThreshold content metadata force s ih
    | update s memory_id content metadata _ ih =>
      exact pairedInv_update embed memory_id content metadata s ih
    | delete s memory_id _ ih =>
      exact pairedInv_delete memory_id s ih
  exact ⟨hinv.1, hinv.2.1⟩

theorem c1_witness :
    (∀ i : ℕ,
        (∃ r ∈ (create_memory (fun _ => []) (fun _ _ => 0) (7 / 10) "x" none
            true initStore).2.memories, r.id = i) ↔
        (∃ e ∈ (create_memory (fun _ => []) (fun _ _ => 0) (7 / 10) "x" none
            true initStore).2.vec, e.1 = i)) ∧
      (∀ r ∈ (create_memory (fun _ => []) (fun _ _ => 0) (7 / 10) "x" none
          true initStore).2.memories,
        ∀ e ∈ (create_memory (fun _ => []) (fun _ _ => 0) (7 / 10) "x" none
            true initStore).2.vec,
          e.1 = r.id → e.2 = r.embedding) :=
  c1_pairing_invariant (fun _ => []) _
    (Reachable.create initStore (fun _ _ => 0) (7 / 10) "x" none true
      Reachable.init)

theorem searchLoop_mem (memories : List MemRow) (threshold : ℚ) (lim : ℤ) :
    ∀ (vec : List (ℕ × ℚ)) (acc : List SearchResult) (r : SearchResult),
      r ∈ searchLoop memories threshold lim vec acc →
      r ∈ acc ∨ ∃ p ∈ vec, ¬(1 - p.2 * p.2 / 2 < threshold) ∧
        r.similarity = round4 (1 - p.2 * p.2 / 2) := by
  intro vec
  induction vec with
  | nil =>
    intro acc r hr
    simp only [searchLoop, List.mem_reverse] at hr
    exact Or.inl hr
  | cons hd rest ih =>
    obtain ⟨rowid, d⟩ := hd
    intro acc r hr
    simp only [searchLoop] at hr
    by_cases hlt : 1 - d * d / 2 < threshold
    · rw [if_pos hlt] at hr
      rcases ih acc r hr with h | ⟨p, hp, hkeep, hsim⟩
      · exact Or.inl h
      · exact Or.inr ⟨p, List.mem_cons_of_mem _ hp, hkeep, hsim⟩
    · rw [if_neg hlt] at hr
      cases hfetch : fetchMemory memories rowid with
      | some m =>
        rw [hfetch] at hr
        by_cases hbreak : lim ≤
            (({ id := m.id, content := m.content,
                similarity := round4 (1 - d * d / 2),
                created_at := m.created_at, updated_at := m.updated_at,
                metadata := loadsIfTruthy m.metadata } :: acc :
                List SearchResult).length : ℤ)
        · rw [if_pos hbreak] at hr
          rw [List.mem_reverse, List.mem_cons] at hr
          rcases hr with hr | hr
          · exact Or.inr ⟨(rowid, d), List.mem_cons_self _ _, hlt, by rw [hr]⟩
          · exact Or.inl hr
        · rw [if_neg hbreak] at hr
          rcases ih _ r hr with h | ⟨p, hp, hkeep, hsim⟩
          · rw [List.mem_cons] at h
            rcases h with h | h
            · exact Or.inr ⟨(rowid, d), List.mem_cons_self _ _, hlt, by rw [h]⟩
            · exact Or.inl h
          · exact Or.inr ⟨p, List.mem_cons_of_mem _ hp, hkeep, hsim⟩
      | none =>
        rw [hfetch] at hr
        by_cases hbreak : lim ≤ (acc.length : ℤ)
        · rw [if_pos hbreak, List.mem_reverse] at hr
          exact Or.inl hr
        · rw [if_neg hbreak] at hr
          rcases ih acc r hr with h | ⟨p, hp, hkeep, hsim⟩
          · exact Or.inl h
          · exact Or.inr ⟨p, List.mem_cons_of_mem _ hp, hkeep, hsim⟩

theorem searchLoop_filter (memories : List MemRow) (threshold : ℚ) (lim : ℤ) :
    ∀ (vec : List (ℕ × ℚ)) (acc : List SearchResult),
      searchLoop memories threshold lim vec acc =
        searchLoop memories threshold lim
          (vec.filter fun p => !decide (1 - p.2 * p.2 / 2 < threshold)) acc := by
  intro vec
  induction vec with
  | nil => intro acc; rfl
  | cons hd rest ih =>
    obtain ⟨rowid, d⟩ := hd
    intro acc
    by_cases hlt : 1 - d * d / 2 < threshold
    · rw [show ((rowid, d) :: rest).filter
          (fun p => !decide (1 - p.2 * p.2 / 2 < threshold)) =
          rest.filter (fun p => !decide (1 - p.2 * p.2 / 2 < threshold)) by
        simp [hlt]]
      rw [show searchLoop memories threshold lim ((rowid, d) :: rest) acc =
          searchLoop memories threshold lim rest acc by
        simp only [searchLoop]; rw [if_pos hlt]]
      exact ih acc
    · rw [show ((rowid, d) :: rest).filter
          (fun p => !decide (1 - p.2 * p.2 / 2 < threshold)) =
          (rowid, d) :: rest.filter
            (fun p => !decide (1 - p.2 * p.2 / 2 < threshold)) by
        simp [hlt]]
      simp only [searchLoop]
      rw [if_neg hlt, if_neg hlt]
      cases hfetch : fetchMemory memories rowid with
      | some m =>
        split
        · rfl
        · exact ih _
      | none =>
        split
        · rfl
        · exact ih _

/-! ### C2 -/

/-- C2: for every query and every candidate returned by the vector index
with L2 distance `d`, `search_memories` converts `d` to similarity
`1 - d²/2`, discards the candidate exactly when that similarity is strictly
below `similarity_threshold`, and every similarity value in the returned
results is that quantity rounded to 4 decimal places (for the candidate the
result was hydrated from). -/
theorem c2_similarity_conversion (memories : List MemRow)
    (vec_results : List (ℕ × ℚ)) (lim : ℤ) (threshold : ℚ) :
    (∀ r ∈ search_memories_core memories vec_results lim threshold,
        ∃ p ∈ vec_results, ¬(1 - p.2 * p.2 / 2 < threshold) ∧
          r.similarity = round4 (1 - p.2 * p.2 / 2)) ∧
      search_memories_core memories vec_results lim threshold =
        search_memories_core memories
          (vec_results.filter fun p => !decide (1 - p.2 * p.2 / 2 < threshold))
          lim threshold := by
  constructor
  · intro r hr
    rcases searchLoop_mem memories threshold lim vec_results [] r hr with h | h
    · simp at h
    · exact h
  · exact searchLoop_filter memories threshold lim vec_results []

theorem c2_witness :
    ∃ p ∈ [((1 : ℕ), (0 : ℚ))], ¬(1 - p.2 * p.2 / 2 < (1 : ℚ) / 2) ∧
      (⟨1, "a", round4 (1 - 0 * 0 / 2), 0, 0, none⟩ : SearchResult).similarity =
        round4 (1 - p.2 * p.2 / 2) := by
  have key := (c2_similarity_conversion [sampleRow 1 "a" 0 none]
    [((1 : ℕ), (0 : ℚ))] 5 (1 / 2)).1
  refine key ⟨1, "a", round4 (1 - 0 * 0 / 2), 0, 0, none⟩ ?_
  simp [search_memories_core, searchLoop, fetchMemory, sampleRow,
    loadsIfTruthy]
  norm_num

/-! ### C3 -/

/-- C3: for every `create_memory` call without the force flag, if the
similarity search over the existing content (candidate count 5, configured
duplicate threshold) returns at least one result, then `create_memory`
returns a `conflict_detected` outcome carrying the conflicting records as
(id, content, similarity) triples and the store is unchanged; if force is
set or the search returns nothing, the insert proceeds and appends the
record and its vector entry. -/
theorem c3_duplicate_guard (embed : String → List ℚ)
    (dist : Blob → Blob → ℚ) (dupThreshold : ℚ) (content : String)
    (metadata : Option Metadata) (force : Bool) (s : Store) :
    (force = false →
      find_similar_memories embed dist dupThreshold s content ≠ [] →
      create_memory embed dist dupThreshold content metadata force s =
        (CreateResult.conflict_detected
          "Found similar existing memories. Use force=true to create anyway, or call update_memory to merge."
          ((find_similar_memories embed dist dupThreshold s content).map
            (fun m => (m.id, m.content, m.similarity))), s)) ∧
    (force = true ∨
        find_similar_memories embed dist dupThreshold s content = [] →
      create_memory embed dist dupThreshold content metadata force s =
        (CreateResult.stored s.nextId content s.clock,
          { memories := s.memories ++
              [{ id := s.nextId, content := content,
                 embedding := embedding_to_blob (embed content),
                 created_at := s.clock, updated_at := s.clock,
                 metadata := dumpsIfTruthy metadata }],
            vec := s.vec ++ [(s.nextId, embedding_to_blob (embed content))],
            nextId := s.nextId + 1, clock := s.clock + 1 })) := by
  constructor
  · intro hforce hne
    subst hforce
    cases hsim : find_similar_memories embed dist dupThreshold s content with
    | nil => exact absurd hsim hne
    | cons hd tl =>
      simp only [create_memory, Bool.false_eq_true, if_false, hsim]
  · intro hcase
    cases force with
    | true => simp only [create_memory, if_true]
    | false =>
      rcases hcase with hcase | hcase
      · exact absurd hcase (by simp)
      · simp only [create_memory, Bool.false_eq_true, if_false, hcase]

theorem c3_witness :
    create_memory (fun _ => []) (fun _ _ => 0) (7 / 10) "hello" none false
        initStore =
      (CreateResult.stored initStore.nextId ("hello") initStore.clock,
        { memories := initStore.memories ++
            [{ id := initStore.nextId, content := "hello",
               embedding := embedding_to_blob ((fun _ : String => ([] : List ℚ)) "hello"),
               created_at := initStore.clock, updated_at := initStore.clock,
               metadata := dumpsIfTruthy none }],
          vec := initStore.vec ++
            [(initStore.nextId,
              embedding_to_blob ((fun _ : String => ([] : List ℚ)) "hello"))],
          nextId := initStore.nextId + 1, clock := initStore.clock + 1 }) :=
  (c3_duplicate_guard (fun _ => []) (fun _ _ => 0) (7 / 10) "hello" none
      false initStore).2
    (Or.inr (by
      simp [find_similar_memories, search_memories, knnQuery,
        search_memories_core, searchLoop, initStore]))

theorem pow2_eq_zpow (e : ℤ) : pow2 e = (2 : ℚ) ^ e := by
  unfold pow2
  by_cases h : 0 ≤ e
  · rw [if_pos h, ← zpow_natCast (2 : ℚ) e.toNat, Int.toNat_of_nonneg h]
  · rw [if_neg h, ← zpow_natCast (2 : ℚ) (-e).toNat,
      Int.toNat_of_nonneg (by omega), ← zpow_neg, neg_neg]

theorem pow2_pos (e : ℤ) : 0 < pow2 e := by
  rw [pow2_eq_zpow]
  exact zpow_pos (by norm_num) e

theorem pow2_add (a b : ℤ) : pow2 (a + b) = pow2 a * pow2 b := by
  rw [pow2_eq_zpow, pow2_eq_zpow, pow2_eq_zpow, zpow_add₀ (by norm_num)]

theorem roundHalfEven_intCast (n : ℤ) : roundHalfEven (n : ℚ) = n := by
  simp only [roundHalfEven, Int.floor_intCast, sub_self]
  rw [if_pos (by norm_num)]

theorem roundHalfEven_add_half (m : ℤ) :
    roundHalfEven ((m : ℚ) + 1 / 2) = if m % 2 = 0 then m else m + 1 := by
  have hhalf : ⌊(1 : ℚ) / 2⌋ = 0 := by
    rw [Int.floor_eq_iff]
    constructor <;> norm_num
  have hfloor : ⌊(m : ℚ) + 1 / 2⌋ = m := by
    rw [add_comm, Int.floor_add_int, hhalf, zero_add]
  simp only [roundHalfEven, hfloor]
  have hr : ((m : ℚ) + 1 / 2) - m = 1 / 2 := by ring
  rw [hr, if_neg (by norm_num), if_neg (by norm_num)]

theorem findFirst_eq_none (P : ℕ → Bool) :
    ∀ n, findFirst P n = none → ∀ j, j < n → P j = false := by
  intro n
  induction n with
  | zero => intro _ j hj; omega
  | succ n ih =>
    intro h j hj
    simp only [findFirst] at h
    cases hfn : findFirst P n with
    | some k => rw [hfn] at h; exact absurd h (by simp)
    | none =>
      rw [hfn] at h
      by_cases hp : P n = true
      · rw [if_pos hp] at h; exact absurd h (by simp)
      · rcases Nat.lt_succ_iff_lt_or_eq.mp hj with hj' | rfl
        · exact ih hfn j hj'
        · simpa using hp

theorem findFirst_eq_some (P : ℕ → Bool) :
    ∀ n k, findFirst P n = some k → P k = true ∧ k < n := by
  intro n
  induction n with
  | zero => intro k h; simp [findFirst] at h
  | succ n ih =>
    intro k h
    simp only [findFirst] at h
    cases hfn : findFirst P n with
    | some k' =>
      rw [hfn] at h
      obtain rfl : k' = k := by simpa using h
      exact ⟨(ih k' hfn).1, Nat.lt_succ_of_lt (ih k' hfn).2⟩
    | none =>
      rw [hfn] at h
      by_cases hp : P n = true
      · rw [if_pos hp] at h
        obtain rfl : n = k := by simpa using h
        exact ⟨hp, Nat.lt_succ_self _⟩
      · rw [if_neg hp] at h; exact absurd h (by simp)

theorem findFirst_exists (P : ℕ → Bool) :
    ∀ n k, P k = true → k < n → ∃ j, findFirst P n = some j ∧ j ≤ k := by
  intro n
  induction n with
  | zero => intro k _ hk; omega
  | succ n ih =>
    intro k hP hk
    simp only [findFirst]
    cases hfn : findFirst P n with
    | some j =>
      rcases Nat.lt_succ_iff_lt_or_eq.mp hk with hk' | rfl
      · obtain ⟨j', hj', hle⟩ := ih k hP hk'
        rw [hfn] at hj'
        obtain rfl : j = j' := by simpa using hj'
        exact ⟨j, rfl, hle⟩
      · have hjk := (findFirst_eq_some P k j hfn).2
        exact ⟨j, rfl, by omega⟩
    | none =>
      rcases Nat.lt_succ_iff_lt_or_eq.mp hk with hk' | rfl
      · obtain ⟨j', hj', _⟩ := ih k hP hk'
        rw [hfn] at hj'
        exact absurd hj' (by simp)
      · rw [if_pos hP]
        exact ⟨k, rfl, le_refl k⟩

theorem f32Round_isF32 (q : ℚ) (h : IsF32 q) : f32Round q = some q := by
  obtain ⟨n, e, hn, he1, he2, rfl⟩ := h
  set q : ℚ := (n : ℚ) * pow2 e with hq
  have habs : |q| < pow2 (e + 24) := by
    rw [hq, abs_mul, abs_of_pos (pow2_pos e), pow2_add]
    have hnq : |(n : ℚ)| < pow2 24 := by
      calc |(n : ℚ)| = ((|n| : ℤ) : ℚ) := by push_cast; ring
        _ < (((2 : ℤ) ^ 24 : ℤ) : ℚ) := by exact_mod_cast hn
        _ = pow2 24 := by norm_num [pow2, show Int.toNat 24 = 24 from rfl]
    calc |(n : ℚ)| * pow2 e < pow2 24 * pow2 e :=
          mul_lt_mul_of_pos_right hnq (pow2_pos e)
      _ = pow2 e * pow2 24 := mul_comm _ _
  have hk₀ : ((e + 149).toNat : ℤ) = e + 149 := Int.toNat_of_nonneg (by omega)
  have hP : (fun k => decide (|q| * 2 ^ 125 < 2 ^ k)) (e + 149).toNat = true := by
    simp only [decide_eq_true_eq]
    have h2k : (2 : ℚ) ^ ((e + 149).toNat : ℕ) = pow2 (e + 149) := by
      rw [pow2_eq_zpow, ← zpow_natCast (2 : ℚ) (e + 149).toNat, hk₀]
    have h125 : (2 : ℚ) ^ (125 : ℕ) = pow2 125 := by
      norm_num [pow2, show Int.toNat 125 = 125 from rfl]
    rw [h2k, h125]
    calc |q| * pow2 125 < pow2 (e + 24) * pow2 125 :=
          mul_lt_mul_of_pos_right habs (pow2_pos 125)
      _ = pow2 (e + 149) := by rw [← pow2_add]; congr 1; ring
  have hk₀lt : (e + 149).toNat < 255 := by omega
  obtain ⟨j, hfind, hj⟩ :=
    findFirst_exists (fun k => decide (|q| * 2 ^ 125 < 2 ^ k)) 255
      (e + 149).toNat hP hk₀lt
  have hexp : f32Exp q = (j : ℤ) - 149 := by
    unfold f32Exp
    rw [hfind]
  have he'le : (j : ℤ) - 149 ≤ e := by omega
  have hd : (((e - ((j : ℤ) - 149)).toNat : ℕ) : ℤ) = e - ((j : ℤ) - 149) :=
    Int.toNat_of_nonneg (by omega)
  set d : ℕ := (e - ((j : ℤ) - 149)).toNat with hdd
  have hsplit : (2 : ℚ) ^ e = 2 ^ ((j : ℤ) - 149) * 2 ^ (d : ℤ) := by
    rw [← zpow_add₀ (by norm_num : (2 : ℚ) ≠ 0)]
    congr 1
    omega
  have h2e' : (0 : ℚ) < (2 : ℚ) ^ ((j : ℤ) - 149) := zpow_pos (by norm_num) _
  have hne : (2 : ℚ) ^ ((j : ℤ) - 149) ≠ 0 := ne_of_gt h2e'
  have hdiv : q / pow2 ((j : ℤ) - 149) = ((n * 2 ^ d : ℤ) : ℚ) := by
    rw [hq, pow2_eq_zpow ((j : ℤ) - 149), pow2_eq_zpow e, hsplit]
    push_cast
    rw [← zpow_natCast (2 : ℚ) d]
    rw [mul_comm ((2 : ℚ) ^ ((j : ℤ) - 149)) ((2 : ℚ) ^ ((d : ℕ) : ℤ)),
      ← mul_assoc, mul_div_assoc, div_self hne, mul_one]
  have hround : roundHalfEven (q / pow2 ((j : ℤ) - 149)) = n * 2 ^ d := by
    rw [hdiv, roundHalfEven_intCast]
  have hv : ((n * 2 ^ d : ℤ) : ℚ) * pow2 ((j : ℤ) - 149) = q := by
    rw [hq, pow2_eq_zpow ((j : ℤ) - 149), pow2_eq_zpow e, hsplit]
    push_cast
    rw [← zpow_natCast (2 : ℚ) d]
    ring
  have hvlt : |((n * 2 ^ d : ℤ) : ℚ) * pow2 ((j : ℤ) - 149)| < 2 ^ 128 := by
    rw [hv]
    calc |q| < pow2 (e + 24) := habs
      _ ≤ pow2 128 := by
          rw [pow2_eq_zpow, pow2_eq_zpow]
          exact zpow_le_zpow_right₀ (by norm_num) (by omega)
      _ = 2 ^ 128 := by norm_num [pow2, show Int.toNat 128 = 128 from rfl]
  simp only [f32Round, hexp]
  rw [hround]
  rw [if_pos hvlt, hv]

/-! ### C4 -/

/-- C4 (amended): the blob encoding round-trips exactly on every vector
whose components are representable as finite binary32 values (as the
embedding model's float32 outputs are); `struct.pack("f", ...)` narrows a
general double to the nearest float32, so exactness holds precisely on such
vectors. -/
theorem c4_blob_roundtrip_f32 (v : List ℚ) (h : ∀ x ∈ v, IsF32 x) :
    blob_to_embedding (embedding_to_blob v) = v.map some := by
  unfold blob_to_embedding embedding_to_blob
  exact List.map_congr_left (fun x hx => f32Round_isF32 x (h x hx))

theorem c4_witness :
    blob_to_embedding (embedding_to_blob [1 / 2, 3]) = [1 / 2, 3].map some :=
  c4_blob_roundtrip_f32 [1 / 2, 3] (by
    intro x hx
    simp only [List.mem_cons, List.not_mem_nil, or_false] at hx
    rcases hx with rfl | rfl
    · exact ⟨1, -1, by norm_num, by norm_num, by norm_num, by norm_num [pow2]⟩
    · exact ⟨3, 0, by norm_num, by norm_num, by norm_num, by norm_num [pow2]⟩)

theorem f32Round_one_add_eps : f32Round (1 + (2 ^ 24 : ℚ)⁻¹) = some 1 := by
  have hP126 : (fun k =>
      decide (|(1 + (2 ^ 24 : ℚ)⁻¹)| * 2 ^ 125 < 2 ^ k)) 126 = true := by
    simp only [decide_eq_true_eq]
    rw [abs_of_pos (by norm_num)]
    norm_num
  have hP125 : ¬ ((fun k =>
      decide (|(1 + (2 ^ 24 : ℚ)⁻¹)| * 2 ^ 125 < 2 ^ k)) 125 = true) := by
    simp only [decide_eq_true_eq]
    rw [abs_of_pos (by norm_num)]
    norm_num
  obtain ⟨j, hfind, hj⟩ :=
    findFirst_exists (fun k =>
        decide (|(1 + (2 ^ 24 : ℚ)⁻¹)| * 2 ^ 125 < 2 ^ k)) 255 126 hP126
      (by norm_num)
  have hPj := (findFirst_eq_some _ 255 j hfind).1
  have hj126 : j = 126 := by
    rcases Nat.lt_or_ge j 126 with h' | h'
    · exfalso
      apply hP125
      simp only [decide_eq_true_eq] at hPj ⊢
      calc |(1 + (2 ^ 24 : ℚ)⁻¹)| * 2 ^ 125 < 2 ^ j := hPj
        _ ≤ 2 ^ 125 := pow_le_pow_right₀ (by norm_num) (by omega)
    · omega
  subst hj126
  have hexp : f32Exp (1 + (2 ^ 24 : ℚ)⁻¹) = -23 := by
    unfold f32Exp
    rw [hfind]
    rfl
  have hdiv : (1 + (2 ^ 24 : ℚ)⁻¹) / pow2 (-23) =
      (((2 : ℤ) ^ 23 : ℤ) : ℚ) + 1 / 2 := by
    norm_num [pow2, show Int.toNat 23 = 23 from rfl]
  have hround : roundHalfEven ((1 + (2 ^ 24 : ℚ)⁻¹) / pow2 (-23)) =
      (2 : ℤ) ^ 23 := by
    rw [hdiv, roundHalfEven_add_half]
    norm_num
  have hv : (((2 : ℤ) ^ 23 : ℤ) : ℚ) * pow2 (-23) = 1 := by
    norm_num [pow2, show Int.toNat 23 = 23 from rfl]
  simp only [f32Round, hexp]
  rw [hround, hv]
  rw [if_pos (by norm_num)]

theorem c4_counterexample :
    blob_to_embedding (embedding_to_blob [1 + (2 ^ 24 : ℚ)⁻¹]) = [some 1] ∧
      (1 + (2 ^ 24 : ℚ)⁻¹) ≠ 1 := by
  constructor
  · unfold blob_to_embedding embedding_to_blob
    rw [List.map_singleton, f32Round_one_add_eps]
  · norm_num

/-! ### C5 -/

/-- C5: for every call to `search_memories` with `limit ≤ 0`, the result is
the empty list (and the model raises no error): the KNN query is asked for
`2 × limit ≤ 0` candidates, returns none, and the loop returns the empty
accumulator. -/
theorem c5_search_nonpositive_limit_empty (embed : String → List ℚ)
    (dist : Blob → Blob → ℚ) (s : Store) (query : String) (lim : ℤ)
    (threshold : ℚ) (h : lim ≤ 0) :
    search_memories embed dist s query lim threshold = [] := by
  have h0 : (2 * lim).toNat = 0 := by omega
  simp [search_memories, knnQuery, search_memories_core, h0, searchLoop]

theorem c5_witness :
    (0 : ℤ) ≤ 0 ∧
      search_memories (fun _ => []) (fun _ _ => 0) initStore ("query") 0 (1 / 2) = [] :=
  ⟨le_refl 0,
    c5_search_nonpositive_limit_empty (fun _ => []) (fun _ _ => 0) initStore
      ("query") 0 (1 / 2) (le_refl 0)⟩

/-! ### C6 -/

/-- C6: for every store state and every `page_size ≥ 1`, `list_memories`
returns successfully and reports `total_pages = ⌈total / page_size⌉`, and
reports `total_pages = 1` when `total = 0`. -/
theorem c6_total_pages (page lim : ℤ) (s : Store) (h : 1 ≤ lim) :
    Except.map ListResult.total_pages (list_memories page lim s) =
      Except.ok
        (if s.memories.length = 0 then 1
         else ⌈(s.memories.length : ℚ) / (lim : ℚ)⌉) := by
  by_cases h0 : s.memories.length = 0
  · have htp : (if 0 < s.memories.length then
        pyFloorDiv ((s.memories.length : ℤ) + lim - 1) lim
      else Except.ok 1) = Except.ok 1 := by
      simp [h0]
    rw [list_memories_ok page lim s 1 htp]
    simp [Except.map, h0]
  · have hpos : 0 < s.memories.length := Nat.pos_of_ne_zero h0
    have hlim0 : lim ≠ 0 := by omega
    set l : ℕ := lim.toNat with hl
    have hlcast : (l : ℤ) = lim := Int.toNat_of_nonneg (by omega)
    have hnum : (s.memories.length : ℤ) + lim - 1 =
        ((s.memories.length + l - 1 : ℕ) : ℤ) := by
      omega
    have hcast2 : ((l : ℤ) : ℚ) = (l : ℚ) := by norm_cast
    have key : Int.fdiv ((s.memories.length : ℤ) + lim - 1) lim =
        ⌈(s.memories.length : ℚ) / (lim : ℚ)⌉ := by
      rw [hnum, ← hlcast, fdiv_natCast, hcast2,
        ceil_div_nat s.memories.length l (by omega)]
    have htp : (if 0 < s.memories.length then
        pyFloorDiv ((s.memories.length : ℤ) + lim - 1) lim
      else Except.ok 1) =
        Except.ok ⌈(s.memories.length : ℚ) / (lim : ℚ)⌉ := by
      simp [hpos, pyFloorDiv, hlim0, key]
    rw [list_memories_ok page lim s _ htp]
    simp [Except.map, h0]

theorem c6_witness :
    Except.map ListResult.total_pages (list_memories 1 2 sampleStore3) =
      Except.ok
        (if sampleStore3.memories.length = 0 then 1
         else ⌈(sampleStore3.memories.length : ℚ) / ((2 : ℤ) : ℚ)⌉) :=
  c6_total_pages 1 2 sampleStore3 (by norm_num)

/-! ### C7 -/

/-- C7: for every id not present in the store, `update_memory` and
`delete_memory` each return a structured not-found error result and leave
the store (both tables) unchanged. -/
theorem c7_not_found (embed : String → List ℚ) (memory_id : ℕ)
    (content : String) (metadata : Option Metadata) (s : Store)
    (h : ∀ r ∈ s.memories, r.id ≠ memory_id) :
    update_memory embed memory_id content metadata s =
        (UpdateResult.error
          ("Memory with id " ++ toString memory_id ++ " not found"), s) ∧
      delete_memory memory_id s =
        (DeleteResult.error
          ("Memory with id " ++ toString memory_id ++ " not found"), s) := by
  have hfind : s.memories.find? (fun r => r.id == memory_id) = none := by
    rw [List.find?_eq_none]
    intro r hr
    simpa using h r hr
  constructor
  · simp [update_memory, hfind]
  · simp [delete_memory, hfind]

theorem c7_witness :
    update_memory (fun _ => []) 99999 "This should fail" none initStore =
        (UpdateResult.error ("Memory with id 99999 not found"), initStore) ∧
      delete_memory 99999 initStore =
        (DeleteResult.error ("Memory with id 99999 not found"), initStore) :=
  c7_not_found (fun _ => []) 99999 "This should fail" none initStore
    (by intro r hr; simp [initStore] at hr)

/-! ### C8 -/

theorem loads_dumps (m : Option Metadata)
    (h : m = none ∨ ∃ l, m = some l ∧ l ≠ []) :
    loadsIfTruthy (dumpsIfTruthy m) = m := by
  rcases h with rfl | ⟨l, rfl, hl⟩
  · rfl
  · simp [dumpsIfTruthy, loadsIfTruthy, hl]

/-- C8 (amended): metadata supplied to `create_memory` is stored and read
back verbatim for `None` and for every non-empty mapping: the storage
encoding round-trips exactly on such values, and the record created with
such metadata is listed back with that same metadata.  (The empty mapping is
excluded: Python's `if metadata` conflates it with `None`.) -/
theorem c8_metadata_roundtrip (embed : String → List ℚ)
    (dist : Blob → Blob → ℚ) (dupThreshold : ℚ) (content : String)
    (m : Option Metadata) (s : Store)
    (h : m = none ∨ ∃ l, m = some l ∧ l ≠ []) :
    loadsIfTruthy (dumpsIfTruthy m) = m ∧
      ∃ res, list_memories 1 ((s.memories.length : ℤ) + 1)
          (create_memory embed dist dupThreshold content m true s).2 =
            Except.ok res ∧
        ∃ row ∈ res.memories, row.id = s.nextId ∧ row.metadata = m := by
  have hround := loads_dumps m h
  refine ⟨hround, ?_⟩
  have hstate : (create_memory embed dist dupThreshold content m true s).2 =
      { memories := s.memories ++
          [{ id := s.nextId, content := content,
             embedding := embedding_to_blob (embed content),
             created_at := s.clock, updated_at := s.clock,
             metadata := dumpsIfTruthy m }],
        vec := s.vec ++ [(s.nextId, embedding_to_blob (embed content))],
        nextId := s.nextId + 1, clock := s.clock + 1 } := by
    simp only [create_memory, if_true]
  rw [hstate]
  set newRow : MemRow :=
    { id := s.nextId, content := content,
      embedding := embedding_to_blob (embed content),
      created_at := s.clock, updated_at := s.clock,
      metadata := dumpsIfTruthy m } with hnewRow
  set S' : Store :=
    { memories := s.memories ++ [newRow],
      vec := s.vec ++ [(s.nextId, embedding_to_blob (embed content))],
      nextId := s.nextId + 1, clock := s.clock + 1 } with hS'
  have hlen : S'.memories.length = s.memories.length + 1 := by
    simp [hS']
  have hlim : (0 : ℤ) < (s.memories.length : ℤ) + 1 := by positivity
  have htp : (if 0 < S'.memories.length then
      pyFloorDiv ((S'.memories.length : ℤ) + ((s.memories.length : ℤ) + 1) - 1)
        ((s.memories.length : ℤ) + 1)
    else Except.ok 1) =
      Except.ok (Int.fdiv
        ((S'.memories.length : ℤ) + ((s.memories.length : ℤ) + 1) - 1)
        ((s.memories.length : ℤ) + 1)) := by
    rw [if_pos (by omega), pyFloorDiv, if_neg (by omega)]
  refine ⟨_, list_memories_ok 1 _ S' _ htp, ?_⟩
  have hmem : newRow ∈ selectPage S'.memories
      ((s.memories.length : ℤ) + 1) ((1 - 1) * ((s.memories.length : ℤ) + 1)) := by
    unfold selectPage
    rw [if_neg (by omega)]
    have hoff : ((1 - 1) * ((s.memories.length : ℤ) + 1)).toNat = 0 := by
      norm_num
    rw [hoff, List.drop_zero]
    have hlensort :
        (S'.memories.mergeSort (fun a b => b.created_at ≤ a.created_at)).length =
          s.memories.length + 1 := by
      rw [(List.mergeSort_perm S'.memories _).length_eq, hlen]
    rw [List.take_of_length_le (by rw [hlensort]; omega)]
    rw [List.mem_mergeSort, hS']
    simp
  refine ⟨_, List.mem_map_of_mem _ hmem, ?_, ?_⟩
  · rfl
  · simpa using hround

theorem c8_witness :
    loadsIfTruthy (dumpsIfTruthy (some [("k", "v")])) = some [("k", "v")] ∧
      ∃ res, list_memories 1 ((initStore.memories.length : ℤ) + 1)
          (create_memory (fun _ => []) (fun _ _ => 0) (7 / 10) "c"
            (some [("k", "v")]) true initStore).2 =
            Except.ok res ∧
        ∃ row ∈ res.memories, row.id = initStore.nextId ∧
          row.metadata = some [("k", "v")] :=
  c8_metadata_roundtrip (fun _ => []) (fun _ _ => 0) (7 / 10) "c"
    (some [("k", "v")]) initStore
    (Or.inr ⟨[("k", "v")], rfl, by simp⟩)

theorem c8_counterexample :
    Except.map (fun res => res.memories.map ListedRow.metadata)
        (list_memories 1 50
          (create_memory (fun _ => []) (fun _ _ => 0) (7 / 10) "c"
            (some ([] : Metadata)) true initStore).2) =
      Except.ok [none] ∧
      some ([] : Metadata) ≠ (none : Option Metadata) := by
  constructor
  · have hstate : (create_memory (fun _ => ([] : List ℚ)) (fun _ _ => 0)
        (7 / 10) "c" (some ([] : Metadata)) true initStore).2 =
        { memories := [sampleRow 1 "c" 0 none], vec := [(1, [])],
          nextId := 2, clock := 1 } := by
      simp [create_memory, initStore, dumpsIfTruthy, embedding_to_blob,
        sampleRow]
    rw [hstate]
    have htp : (if 0 < ([sampleRow 1 "c" 0 none] : List MemRow).length then
        pyFloorDiv ((([sampleRow 1 "c" 0 none] : List MemRow).length : ℤ)
          + 50 - 1) 50
      else Except.ok 1) = Except.ok 1 := by
      rw [if_pos (by simp), pyFloorDiv, if_neg (by omega)]
      norm_num
    rw [list_memories_ok 1 50 _ 1 htp]
    simp [selectPage, loadsIfTruthy, Except.map, sampleRow]
  · simp

/-- C9: for every existing record, calling `update_memory` on it with the
metadata argument omitted (`None`) sets the stored metadata column to null
rather than preserving the previous value — the UPDATE always overwrites the
metadata column. -/
theorem c9_update_overwrites_metadata (embed : String → List ℚ)
    (memory_id : ℕ) (content : String) (s : Store)
    (h : ∃ r ∈ s.memories, r.id = memory_id) :
    ∀ r' ∈ (update_memory embed memory_id content none s).2.memories,
      r'.id = memory_id → r'.metadata = none := by
  obtain ⟨r, hr, hrid⟩ := h
  have hne : s.memories.find? (fun x => x.id == memory_id) ≠ none := by
    rw [Ne, List.find?_eq_none]
    push_neg
    exact ⟨r, hr, by simp [hrid]⟩
  obtain ⟨w, hw⟩ : ∃ w, s.memories.find? (fun x => x.id == memory_id) = some w := by
    cases hfind : s.memories.find? (fun x => x.id == memory_id) with
    | none => exact absurd hfind hne
    | some w => exact ⟨w, rfl⟩
  intro r' hr' hrid'
  simp only [update_memory, hw, List.mem_map] at hr'
  obtain ⟨x, _, rfl⟩ := hr'
  by_cases hx : x.id = memory_id
  · simp [hx, dumpsIfTruthy]
  · simp [hx] at hrid'

theorem c9_witness :
    ({ id := 1, content := "new content", embedding := ([] : Blob),
       created_at := 0, updated_at := 1,
       metadata := (none : Option Metadata) } : MemRow).metadata = none :=
  c9_update_overwrites_metadata (fun _ => []) 1 "new content"
    { memories := [sampleRow 1 "old" 0 (some [("k", "v")])],
      vec := [(1, [])], nextId := 2, clock := 1 }
    ⟨sampleRow 1 "old" 0 (some [("k", "v")]), by simp, rfl⟩
    { id := 1, content := "new content", embedding := ([] : Blob),
      created_at := 0, updated_at := 1,
      metadata := (none : Option Metadata) }
    (by simp [update_memory, sampleRow, embedding_to_blob, dumpsIfTruthy])
    rfl

/-! ### C10 -/

/-- C10: for every store state with `total > 0`, calling `list_memories`
with `limit = 0` evaluates `(total + limit - 1) // limit` with a zero
divisor and raises `ZeroDivisionError` instead of returning a result; the
guarded branch returning `total_pages = 1` is taken only when `total = 0`. -/
theorem c10_list_zero_limit_divide_by_zero (page : ℤ) (s : Store)
    (h : 0 < s.memories.length) :
    list_memories page 0 s =
      Except.error ("integer division or modulo by zero") := by
  have htp : (if 0 < s.memories.length then
      pyFloorDiv ((s.memories.length : ℤ) + 0 - 1) 0
    else Except.ok 1) =
      Except.error ("integer division or modulo by zero") := by
    simp [h, pyFloorDiv]
  unfold list_memories
  rw [htp]

theorem c10_witness :
    list_memories 1 0 sampleStore1 =
      Except.error ("integer division or modulo by zero") :=
  c10_list_zero_limit_divide_by_zero 1 sampleStore1
    (by simp [sampleStore1])

end MCPMemory
